import Mathlib

/-!
Verification development for the GraphSAGE recommender notebook
(src/3_recommender_system/Recommendation.ipynb).

The notebook defines a feature mixer (mix_embeddings), two GraphSAGE
convolution layers (GraphSageConv and GraphSageConvWithSampling), two model
wrappers (GraphSage and GraphSageWithSampling), and a minibatch training loop
driven by a DGL NeighborSampler.

Modelling conventions:
- Real (float) scalars are embedded as rationals.  The type FV adds a
  distinguished element FV.undef standing for a value that is not a defined
  finite number (NaN, or an infinity); every arithmetic operation propagates
  FV.undef, and division by zero produces FV.undef.  On the code paths
  analysed here the undefined values arise as 0/0, which is NaN in IEEE
  arithmetic, so FV.undef faithfully tracks the NaN behaviour of the code.
- Tensors are lists: a node feature column is a list over nodes, a node
  embedding is a list of F scalars, a batch is a list of rows, matching the
  DGL layout where G.ndata[key] is one tensor column per key.
- The square root needed by the L2 norm is irrational in general, so the
  per-row L2 norm is passed as an explicit argument constrained by the
  defining equations (nonnegative, square equal to the sum of squares).
-/

/-- Embedding vectors and feature vectors: lists of rational scalars. -/
abbrev Vec := List ℚ

/-- Elementwise addition of two vectors (torch elementwise +). -/
def vadd (a b : Vec) : Vec := List.zipWith (fun x y => x + y) a b

/-- Scalar multiple of a vector. -/
def vscale (c : ℚ) (v : Vec) : Vec := v.map (fun x => c * x)

/-- Sum of a list of F-dimensional vectors, starting from the zero vector of
width F (torch stack followed by sum over the stacking axis, and the zero
initialisation DGL uses for nodes that receive no message). -/
def vsum0 (F : ℕ) (l : List Vec) : Vec := l.foldr vadd (List.replicate F 0)

/-- Sum of squares of the entries of a vector: the square of its L2 norm. -/
def qSumSq (v : Vec) : ℚ := (v.map (fun x => x * x)).sum

/-- Modelled from the spec: the numeric core of the safediv helper used by
GraphSageConvWithSampling.forward.  safediv is not defined anywhere in the
repository; spec section 7 requires numeric degeneracy (zero divisor) to be
guarded by safe division rather than propagate NaN, so the quotient is taken
to be 0 when the divisor is 0. -/
def sdiv (x y : ℚ) : ℚ := if y = 0 then 0 else x / y

/-- A float value: either a defined finite number, or FV.undef (NaN or an
infinity).  See the module comment. -/
inductive FV where
  | fin (q : ℚ)
  | undef
  deriving DecidableEq

/-- Float addition; FV.undef propagates (NaN + x = NaN). -/
def FV.add : FV → FV → FV
  | FV.fin a, FV.fin b => FV.fin (a + b)
  | _, _ => FV.undef

/-- Float subtraction; FV.undef propagates. -/
def FV.sub : FV → FV → FV
  | FV.fin a, FV.fin b => FV.fin (a - b)
  | _, _ => FV.undef

/-- Float multiplication; FV.undef propagates (NaN * x = NaN, 0 * inf = NaN). -/
def FV.mul : FV → FV → FV
  | FV.fin a, FV.fin b => FV.fin (a * b)
  | _, _ => FV.undef

/-- Float division.  Division by zero does not raise: it yields a value that
is not a defined finite number (0/0 = NaN, x/0 = inf), modelled as FV.undef. -/
def FV.div : FV → FV → FV
  | FV.fin a, FV.fin b => if b = 0 then FV.undef else FV.fin (a / b)
  | _, _ => FV.undef

/-- Float absolute value; FV.undef propagates.  Written with an explicit
sign test so the kernel can evaluate it on concrete rationals. -/
def FV.abs : FV → FV
  | FV.fin a => FV.fin (if a < 0 then -a else a)
  | FV.undef => FV.undef

/-- torch clamp(min=m): clamp a value from below, that is take the maximum of
the value and m; NaN stays NaN.  Written with an explicit comparison so the
kernel can evaluate it on concrete rationals. -/
def FV.clampMin : FV → ℚ → FV
  | FV.fin a, m => FV.fin (if a ≤ m then m else a)
  | FV.undef, _ => FV.undef

/-- Elementwise self-inequality x != x, true exactly at NaN entries; used by
the assertion in GraphSageWithSampling.forward. -/
def FV.selfNe : FV → Bool
  | FV.fin _ => false
  | FV.undef => true

/-- Modelled from the spec: safediv on float values (see sdiv).  On finite
arguments it never produces an undefined value, even for a zero divisor. -/
def safediv : FV → FV → FV
  | FV.fin a, FV.fin b => FV.fin (sdiv a b)
  | _, _ => FV.undef

/-- F.leaky_relu with the default negative slope 1/100. -/
def leakyReluFV : FV → FV
  | FV.fin a => FV.fin (if 0 ≤ a then a else a / 100)
  | FV.undef => FV.undef

/-- A row of float values: one node embedding inside a layer computation. -/
abbrev FVec := List FV

/-- Elementwise addition of two float vectors. -/
def fvecAdd (a b : FVec) : FVec := List.zipWith FV.add a b

/-- Elementwise subtraction of two float vectors. -/
def fvecSub (a b : FVec) : FVec := List.zipWith FV.sub a b

/-- Sum of a list of F-dimensional float vectors starting from the zero
vector (the FN.sum reducer of DGL, zero for nodes with no in-edges). -/
def fvsum0 (F : ℕ) (l : List FVec) : FVec :=
  l.foldr fvecAdd (List.replicate F (FV.fin 0))

/-- Dot product of a finite weight row with a float vector. -/
def dotFV (ws : List ℚ) (xs : FVec) : FV :=
  (List.zipWith (fun w x => FV.mul (FV.fin w) x) ws xs).foldr FV.add (FV.fin 0)

/-- nn.Linear with weight matrix W (one row per output coordinate) and bias b,
applied to one input row. -/
def linearFV (W : List (List ℚ)) (b : List ℚ) (x : FVec) : FVec :=
  List.zipWith (fun row bi => FV.add (dotFV row x) (FV.fin bi)) W b

/-- tensor.norm(1): the L1 norm, summing absolute values of every entry. -/
def l1normFV (v : FVec) : FV := (v.map FV.abs).foldr FV.add (FV.fin 0)

/-- Sum of squares of a float row: the square of its L2 norm. -/
def sumSqFV (v : FVec) : FV := (v.map (fun x => FV.mul x x)).foldr FV.add (FV.fin 0)

/-- The final update line of GraphSageConvWithSampling.forward:
safediv(h_new, h_new.norm(dim=1, keepdim=True)) applied to one row, with the
row L2 norm passed explicitly (see the module comment). -/
def l2NormalizeRow (v : FVec) (nrm : FV) : FVec := v.map (fun x => safediv x nrm)

/-- HACK 1 of GraphSageConvWithSampling.forward, for one row:
h_agg = safediv(h_agg - h, w - 1), subtracting the embedding the
sampler-injected self-loop contributed and decrementing the message count. -/
def selfLoopCorrectRow (h_agg h : FVec) (w : FV) : FVec :=
  (fvecSub h_agg h).map (fun x => safediv x (FV.sub w (FV.fin 1)))

/-- GraphSageConv.forward on a batch.  Line by line from the notebook:
h_agg = nodes.data[h_agg] / nodes.data[w][:, None]          (unguarded)
h = nodes.data[h]   (the notebook writes the key h_x, an evident typo the
  spec, section 9, directs reading as h)
h_concat = torch.cat([h, h_agg], 1)   (the notebook writes troch.cat with the
  1 inside the list, the evident typo flagged by spec section 9)
h_new = F.leaky_relu(self.W(h_concat))
return h_new / h_new.norm(1).clamp(min=1e-6)
Note norm(1) is the L1 norm of the whole batch tensor (a scalar), not a
per-row L2 norm, and the division h_agg / w has no zero guard. -/
def GraphSageConv.forward (W : List (List ℚ)) (b : List ℚ)
    (h_agg h : List FVec) (w : List FV) : List FVec :=
  let hAggMean := List.zipWith (fun row wi => row.map (fun x => FV.div x wi)) h_agg w
  let hConcat := List.zipWith (fun a c => a ++ c) h hAggMean
  let hNew := hConcat.map (fun row => (linearFV W b row).map leakyReluFV)
  let nrm := FV.clampMin (l1normFV hNew.flatten) (1 / 1000000)
  hNew.map (fun row => row.map (fun x => FV.div x nrm))

/-- The pre-normalization part of GraphSageConvWithSampling.forward on a
batch: the HACK 1 self-loop correction, concatenation, affine map and
leaky relu. -/
def GraphSageConvWithSampling.hNew (W : List (List ℚ)) (b : List ℚ)
    (h_agg h : List FVec) (w : List FV) : List FVec :=
  let hAggC := List.zipWith (fun (p : FVec × FVec) wi => selfLoopCorrectRow p.1 p.2 wi)
      (h_agg.zip h) w
  let hConcat := List.zipWith (fun a c => a ++ c) h hAggC
  hConcat.map (fun row => (linearFV W b row).map leakyReluFV)

/-- GraphSageConvWithSampling.forward on a batch: the pre-normalization part
followed by safediv(h_new, h_new.norm(dim=1, keepdim=True)); the per-row L2
norms are passed explicitly as nrms (see the module comment). -/
def GraphSageConvWithSampling.forward (W : List (List ℚ)) (b : List ℚ)
    (h_agg h : List FVec) (w nrms : List FV) : List FVec :=
  List.zipWith l2NormalizeRow (GraphSageConvWithSampling.hNew W b h_agg h w) nrms

/-- One per-node raw feature column stored in G.ndata: an int64 column of
single categorical IDs, an int64 column of padded token sequences (dim-3
lookup result in the notebook), or a float32 column of numeric vectors. -/
inductive RawColumn where
  | catSingle (tokens : List ℕ)
  | catSeq (tokenSeqs : List (List ℕ))
  | num (vals : List Vec)
  deriving DecidableEq

/-- Lookup of a padded token sequence in an embedding table followed by
result.mean(1): the bag-of-words average over all token positions. -/
def bagOfWords (F : ℕ) (table : ℕ → Vec) (tokens : List ℕ) : Vec :=
  vscale (1 / (tokens.length : ℚ)) (vsum0 F (tokens.map table))

/-- One iteration of the mix_embeddings loop body for one feature column:
int64 single IDs are looked up in the embedding table, int64 token sequences
are looked up and averaged over tokens (result.mean(1)), float32 columns go
through the learned projection. -/
def columnContribution (F : ℕ) (emb : String → ℕ → Vec) (proj : String → Vec → Vec) :
    String × RawColumn → List Vec
  | (k, RawColumn.catSingle ts) => ts.map (emb k)
  | (k, RawColumn.catSeq tss) => tss.map (fun ts => bagOfWords F (emb k) ts)
  | (k, RawColumn.num vs) => vs.map (proj k)

/-- torch.stack(extra_repr, 0).sum(0): elementwise sum of the per-feature
contribution columns.  torch.stack raises on an empty list, so this is only
meaningful for a nonempty feature set. -/
def colSum : List (List Vec) → List Vec
  | [] => []
  | c :: cs => cs.foldl (fun acc d => List.zipWith vadd acc d) c

/-- mix_embeddings from the notebook, on feature columns, adding the summed
feature contributions into the node embedding column h.  The notebook body
reads self.emb and self.proj where self is unbound (the bug flagged by spec
section 9); following the spec, the intended tables are the emb and proj
parameters that the callers pass in. -/
def mix_embeddings (F : ℕ) (emb : String → ℕ → Vec) (proj : String → Vec → Vec)
    (feats : List (String × RawColumn)) (h : List FVec) : List FVec :=
  let extra_repr := feats.map (columnContribution F emb proj)
  List.zipWith fvecAdd h ((colSum extra_repr).map (fun v => v.map FV.fin))

/-- The literal mix_embeddings of the notebook: its body resolves the free
name self from the enclosing scope, and no such binding exists in the
notebook, so as soon as the loop over feature columns runs an iteration the
call fails (Python NameError) instead of returning a mixed column; an empty
feature set fails too, since torch.stack of an empty list raises.  The
optional selfTables argument is the binding environment for self; it is none
in the notebook. -/
def mix_embeddings_literal
    (selfTables : Option ((String → ℕ → Vec) × (String → Vec → Vec)))
    (F : ℕ) (emb : String → ℕ → Vec) (proj : String → Vec → Vec)
    (feats : List (String × RawColumn)) (h : List FVec) : Option (List FVec) :=
  match feats, selfTables with
  | [], _ => none
  | _ :: _, none => none
  | _ :: _, some (e, p) => some (mix_embeddings F e p feats h)

/-- The per-node data columns of the DGL graph: n is number_of_nodes, h, one,
h_agg and w are the embedding-related ndata columns the model writes, and
feats holds every other node attribute column (the raw features). -/
structure GState where
  n : ℕ
  h : List FVec
  one : List FV
  h_agg : List FVec
  w : List FV
  feats : List (String × RawColumn)
  deriving DecidableEq

/-- The learned parameters of the GraphSage model: feature size, layer count,
the identity embedding table node_emb, the per-feature embedding tables and
projections, and the per-layer affine weights. -/
structure Params where
  F : ℕ
  numLayers : ℕ
  node_emb : ℕ → Vec
  emb : String → ℕ → Vec
  proj : String → Vec → Vec
  convW : ℕ → List (List ℚ)
  convB : ℕ → List ℚ

/-- One G.update_all(msg_funcs, reduce_funcs, convs[i]) step: the copy_src
messages are summed into h_agg (embeddings) and w (the constant one column),
then the convolution writes the new h column. -/
def GraphSage.updateAll (F : ℕ) (W : List (List ℚ)) (b : List ℚ)
    (adj : List (List ℕ)) (g : GState) : GState :=
  let hAgg := (List.range g.n).map
      (fun i => fvsum0 F (((adj.getD i []).map (fun j => g.h.getD j []))))
  let wCol := (List.range g.n).map
      (fun i => ((adj.getD i []).map (fun j => g.one.getD j (FV.fin 0))).foldr FV.add (FV.fin 0))
  { g with h := GraphSageConv.forward W b hAgg g.h wCol, h_agg := hAgg, w := wCol }

/-- GraphSage.forward from the notebook.  It first overwrites G.ndata[h]
from the identity embedding table node_emb and resets G.ndata[one] to ones,
then calls mix_embeddings, then runs the message-passing layers, returning
the final h column together with the mutated graph state. -/
def GraphSage.forward (P : Params) (adj : List (List ℕ)) (st : GState) :
    GState × List FVec :=
  let st1 : GState := { st with
    h := (List.range st.n).map (fun i => (P.node_emb i).map FV.fin),
    one := List.replicate st.n (FV.fin 1) }
  let st2 : GState := { st1 with h := mix_embeddings P.F P.emb P.proj st1.feats st1.h }
  let stF : GState := (List.range P.numLayers).foldl
      (fun g i => GraphSage.updateAll P.F (P.convW i) (P.convB i) adj g) st2
  (stF, stF.h)

/-- The result check at the end of GraphSageWithSampling.forward:
assert (result != result).sum() == 0.  Elementwise self-inequality is true
exactly at NaN entries; a failing assert terminates execution (modelled by
none) instead of returning the result. -/
def assertNoNaN (result : List FVec) : Option (List FVec) :=
  if (result.map (fun row => (row.map FV.selfNe).count true)).sum = 0 then
    some result
  else
    none

/-- nn.Embedding(num_embeddings, F, padding_idx=0): torch keeps the row at
the padding index equal to the zero vector (it is zero initialised and
excluded from gradient updates), all other rows are the learned weights. -/
def paddedEmbedding (F : ℕ) (wts : ℕ → Vec) : ℕ → Vec :=
  fun i => if i = 0 then List.replicate F 0 else wts i

/-- Modelled from the spec: the DGL NeighborSampler invoked by the training
loop is library code that is not part of this repository.  Spec section 4.3:
per seed node the sampler keeps up to K neighbors, chosen uniformly without
replacement, or the whole neighbor list when the degree is at most K.  The
random draw is modelled by the shuffled argument, a permutation of the
neighbor list, of which the first K entries are kept. -/
def NeighborSampler.sample (neighbors shuffled : List ℕ) (K : ℕ) : List ℕ :=
  if neighbors.length ≤ K then neighbors else shuffled.take K

/-- Recursion core of splitBatches.  The fuel argument, instantiated with the
length of the list, only bounds the recursion depth (each step removes at
least one element when bs is positive) and keeps the recursion structural so
that the kernel can evaluate it. -/
def splitBatchesGo (bs : ℕ) : ℕ → List ℕ → List (List ℕ)
  | _, [] => []
  | 0, _ => []
  | fuel + 1, x :: xs =>
    if bs = 0 then []
    else List.take bs (x :: xs) :: splitBatchesGo bs fuel (List.drop bs (x :: xs))

/-- tensor.split(batch_size): consecutive chunks of the given size, the last
chunk possibly shorter. -/
def splitBatches (bs : ℕ) (l : List ℕ) : List (List ℕ) :=
  splitBatchesGo bs l.length l

/-- The per-epoch seed-batch construction of the training loop, line by line:
shuffle_idx = torch.randperm(...); src_shuffled = src[shuffle_idx];
dst_shuffled = dst[shuffle_idx]; src_batches = src.split(batch_size);
dst_batches = dst.split(batch_size); seed_nodes = sum([[s, d] for s, d in
zip(src_batches, dst_batches)], []).  Note the batches are taken from the
unshuffled src and dst; src_shuffled and dst_shuffled are computed and then
never used (the unused shuffle flagged by spec section 9). -/
def epochSeedBatches (src dst : List ℕ) (shuffle_idx : List ℕ) (batch_size : ℕ) :
    List (List ℕ) :=
  let src_shuffled := shuffle_idx.map (fun i => src.getD i 0)
  let dst_shuffled := shuffle_idx.map (fun i => dst.getD i 0)
  let src_batches := splitBatches batch_size src
  let dst_batches := splitBatches batch_size dst
  ((src_batches.zip dst_batches).map (fun p => [p.1, p.2])).flatten

/-- Concrete parameters for evaluating GraphSage.forward on a toy graph:
one layer, feature size one. -/
def exampleParams : Params where
  F := 1
  numLayers := 1
  node_emb := fun _ => [1]
  emb := fun _ t => [(t : ℚ)]
  proj := fun _ v => v
  convW := fun _ => [[1, 1]]
  convB := fun _ => [0]

/-- A toy one-node graph state carrying stale embedding data. -/
def exampleState : GState where
  n := 1
  h := [[FV.fin 5]]
  one := [FV.undef]
  h_agg := [[]]
  w := [FV.fin 3]
  feats := [("year", RawColumn.catSingle [3])]

/-- The same toy graph with different stale embedding data. -/
def exampleState' : GState where
  n := 1
  h := [[]]
  one := []
  h_agg := [[FV.fin 9]]
  w := []
  feats := [("year", RawColumn.catSingle [3])]

/-- The layered computation structure (the DGL NodeFlow) driving the
minibatch forward pass: layers holds the parent node IDs of every layer
(layer 0 the innermost, the last layer the seed nodes), blocks[i][j] lists
the positions within layer i of the in-neighbors of node j of layer i+1,
and layerH and layerOne are the per-layer node data columns.  In DGL,
copy_from_parent also copies the raw feature columns into the layers, but
the block computation reads only the h and one columns, so only those are
carried here. -/
structure NodeFlow where
  layers : List (List ℕ)
  blocks : List (List (List ℕ))
  layerH : List (List FVec)
  layerOne : List (List FV)
  deriving DecidableEq

/-- nf.copy_from_parent(edge_embed_names=None): overwrite every layer's
node data columns with the parent graph columns, looked up by parent node
ID. -/
def NodeFlow.copy_from_parent (st : GState) (nf : NodeFlow) : NodeFlow :=
  { nf with
    layerH := nf.layers.map (fun lay => lay.map (fun v => st.h.getD v [])),
    layerOne := nf.layers.map (fun lay => lay.map (fun v => st.one.getD v (FV.fin 0))) }

/-- One nf.block_compute(i, self.msg, self.red, self.convs[i]) step: the
copy_src messages from layer i are summed into h_agg and w for layer i+1,
then the convolution module writes the h column of layer i+1.  Note that
GraphSageWithSampling.__init__ literally builds its convs list from
GraphSageConv (not GraphSageConvWithSampling), so the block update is
GraphSageConv.forward on the block's batch. -/
def NodeFlow.blockStep (P : Params) (acc : NodeFlow) (i : ℕ) : NodeFlow :=
  let srcH := acc.layerH.getD i []
  let srcOne := acc.layerOne.getD i []
  let edges := acc.blocks.getD i []
  let hAgg := edges.map (fun ins => fvsum0 P.F (ins.map (fun j => srcH.getD j [])))
  let wCol := edges.map (fun ins =>
    (ins.map (fun j => srcOne.getD j (FV.fin 0))).foldr FV.add (FV.fin 0))
  let newCol := GraphSageConv.forward (P.convW i) (P.convB i) hAgg
    (acc.layerH.getD (i + 1) []) wCol
  { acc with layerH := acc.layerH.set (i + 1) newCol }

/-- The block loop of GraphSageWithSampling.forward:
for i in range(nf.num_blocks): nf.block_compute(i, self.msg, self.red,
self.convs[i]). -/
def NodeFlow.blockComputeAll (P : Params) (nf : NodeFlow) : NodeFlow :=
  (List.range nf.blocks.length).foldl (NodeFlow.blockStep P) nf

/-- The prologue of GraphSageWithSampling.forward, the same three lines
that open GraphSage.forward:
self.G.ndata[h] = self.node_emb(torch.arange(N)); ndata[one] = ones(N);
mix_embeddings(self.G, self.emb, self.proj). -/
def GraphSageWithSampling.prologue (P : Params) (st : GState) : GState :=
  let st1 : GState := { st with
    h := (List.range st.n).map (fun i => (P.node_emb i).map FV.fin),
    one := List.replicate st.n (FV.fin 1) }
  { st1 with h := mix_embeddings P.F P.emb P.proj st1.feats st1.h }

/-- GraphSageWithSampling.forward from the notebook: first overwrite the
parent graph embedding column from the identity table and reset the one
column, mix features, copy the columns into the NodeFlow, run the block
loop, then read the h column of the last layer and assert it NaN-free.
The h_emb parameter of the notebook signature is never read in the body.
Returns the mutated parent state, the mutated NodeFlow, and the checked
result. -/
def GraphSageWithSampling.forward (P : Params) (st : GState) (nf : NodeFlow)
    (h_emb : List FVec) : GState × NodeFlow × Option (List FVec) :=
  let st2 := GraphSageWithSampling.prologue P st
  let nf1 := NodeFlow.copy_from_parent st2 nf
  let nf2 := NodeFlow.blockComputeAll P nf1
  let result := nf2.layerH.getD (nf2.layerH.length - 1) []
  (st2, nf2, assertNoNaN result)

/-- A one-block NodeFlow over the one-node toy graph, carrying stale layer
data. -/
def exampleNF : NodeFlow where
  layers := [[0], [0]]
  blocks := [[[0]]]
  layerH := [[[FV.fin 7]], [[]]]
  layerOne := [[FV.undef], []]

/-- The same NodeFlow topology with different stale layer data. -/
def exampleNF' : NodeFlow where
  layers := [[0], [0]]
  blocks := [[[0]]]
  layerH := [[], [[FV.fin 2]]]
  layerOne := [[], [FV.fin 5]]

/-! Helper lemmas. -/

theorem mem_zipWith {α β γ : Type} {f : α → β → γ} {x : γ} :
    ∀ {l₁ : List α} {l₂ : List β}, x ∈ List.zipWith f l₁ l₂ →
      ∃ a ∈ l₁, ∃ b ∈ l₂, x = f a b := by
  intro l₁
  induction l₁ with
  | nil => intro l₂ h; simp at h
  | cons a as ih =>
    intro l₂ h
    cases l₂ with
    | nil => simp at h
    | cons b bs =>
      simp only [List.zipWith_cons_cons, List.mem_cons] at h
      rcases h with h | h
      · exact ⟨a, by simp, b, by simp, h⟩
      · rcases ih h with ⟨a', ha', b', hb', hx⟩
        exact ⟨a', by simp [ha'], b', by simp [hb'], hx⟩

/-- C6 supporting evaluation: on four training edges with batch size two, the
seed batches the loop hands to the sampler are the same for every value of
the shuffle index, and they are the unshuffled source and destination
endpoints, interleaved. -/
theorem epochSeedBatches_ignores_shuffle :
    ∀ shuffle_idx : List ℕ,
      epochSeedBatches [1, 2, 3, 4] [5, 6, 7, 8] shuffle_idx 2
        = [[1, 2], [5, 6], [3, 4], [7, 8]] := by
  intro shuffle_idx
  rfl

/-- C4 supporting evaluation: the literal mix_embeddings of the notebook has
no binding for the name self, so a call on a graph with a categorical feature
column fails instead of producing a mixed embedding column. -/
theorem mix_embeddings_literal_unbound_self :
    mix_embeddings_literal none 1 (fun _ t => [(t : ℚ)]) (fun _ v => v)
      [("year", RawColumn.catSingle [3])] [[FV.fin 1]] = none := by
  rfl

/-- C1 counterexample: in GraphSageConv.forward, a node with zero neighbors
has w = 0 and h_agg the empty (zero) sum, the unguarded division computes
0 / 0 = NaN, and the NaN propagates to the returned embedding, so the output
for that node is not a defined finite vector. -/
theorem graphSageConv_zero_neighbors_nan :
    FV.undef ∈ (GraphSageConv.forward [[1, 1]] [0]
      [[FV.fin 0]] [[FV.fin 1]] [FV.fin 0]).getD 0 [] := by
  decide

/-- C3 counterexample: GraphSageConv.forward divides by the clamped L1 norm
of the whole batch tensor, not by a per-row L2 norm, so its output rows do
not have L2 norm one: here the transformed row is (3, 4), the code divides by
the L1 norm 7, and the resulting row (3/7, 4/7) has squared L2 norm 25/49. -/
theorem graphSageConv_output_not_unit_l2norm :
    sumSqFV ((GraphSageConv.forward [[0, 0, 0, 0], [0, 0, 0, 0]] [3, 4]
      [[FV.fin 0, FV.fin 0]] [[FV.fin 1, FV.fin 0]] [FV.fin 1]).getD 0 [])
      ≠ FV.fin 1 := by
  norm_num [GraphSageConv.forward, linearFV, dotFV, l1normFV, sumSqFV,
    leakyReluFV, FV.div, FV.add, FV.mul, FV.abs, FV.clampMin]

/-- C5: the sampler fan-out bound.  For a permutation of the neighbor list
standing for the uniform draw, the sample has min(degree, K) entries, every
sampled node is a neighbor, the sample has no repeats when the neighbor list
has none (sampling without replacement), and a node of degree at most K keeps
its whole neighbor list. -/
theorem neighborSampler_fanout_bound (neighbors shuffled : List ℕ) (K : ℕ)
    (hperm : List.Perm shuffled neighbors) :
    (NeighborSampler.sample neighbors shuffled K).length = min neighbors.length K ∧
    (∀ x ∈ NeighborSampler.sample neighbors shuffled K, x ∈ neighbors) ∧
    (neighbors.Nodup → (NeighborSampler.sample neighbors shuffled K).Nodup) ∧
    (neighbors.length ≤ K → NeighborSampler.sample neighbors shuffled K = neighbors) := by
  unfold NeighborSampler.sample
  by_cases hle : neighbors.length ≤ K
  · simp [hle, Nat.min_eq_left hle]
  · simp only [if_neg hle]
    refine ⟨?_, ?_, ?_, fun h => absurd h hle⟩
    · simp [List.length_take, hperm.length_eq]
      omega
    · intro x hx
      exact hperm.mem_iff.mp (List.take_subset _ _ hx)
    · intro hnd
      exact ((hperm.nodup_iff).mpr hnd).sublist (List.take_sublist _ _)

/-- C5 witness: three neighbors, fan-out two, a concrete shuffle: the sample
has two entries with no repeat, and its first entry is a neighbor. -/
theorem neighborSampler_fanout_bound_check :
    (NeighborSampler.sample [1, 2, 3] [3, 1, 2] 2).length = min (List.length [1, 2, 3]) 2 ∧
    (NeighborSampler.sample [1, 2, 3] [3, 1, 2] 2).Nodup ∧
    (3 : ℕ) ∈ [1, 2, 3] :=
  have h := neighborSampler_fanout_bound [1, 2, 3] [3, 1, 2] 2 (by decide)
  ⟨h.1, h.2.2.1 (by decide), h.2.1 3 (by decide)⟩

/-- Counting NaN entries of one row by elementwise self-inequality is zero
exactly when the row has no undefined entry. -/
theorem selfNe_count_eq_zero_iff (row : FVec) :
    (row.map FV.selfNe).count true = 0 ↔ FV.undef ∉ row := by
  induction row with
  | nil => simp
  | cons x xs ih =>
    cases x with
    | fin q => simpa [FV.selfNe] using ih
    | undef => simp [FV.selfNe]

/-- C7: the forward pass of GraphSageWithSampling checks its final-layer
result with assert (result != result).sum() == 0.  If any entry of the result
is NaN the assertion fails and execution terminates instead of returning;
otherwise the result is returned unchanged. -/
theorem gswsForward_asserts_no_nan (result : List FVec) :
    ((∃ row ∈ result, FV.undef ∈ row) → assertNoNaN result = none) ∧
    ((∀ row ∈ result, FV.undef ∉ row) → assertNoNaN result = some result) := by
  constructor
  · rintro ⟨row, hrow, hundef⟩
    unfold assertNoNaN
    rw [if_neg]
    intro hsum
    rw [List.sum_eq_zero_iff] at hsum
    have hz := hsum _ (List.mem_map_of_mem (fun r => (r.map FV.selfNe).count true) hrow)
    exact (selfNe_count_eq_zero_iff row).mp hz hundef
  · intro hok
    unfold assertNoNaN
    rw [if_pos]
    rw [List.sum_eq_zero_iff]
    intro c hc
    rcases List.mem_map.mp hc with ⟨row, hrow, hcref⟩
    subst hcref
    exact (selfNe_count_eq_zero_iff row).mpr (hok row hrow)

/-- C7 witness: a result with a NaN entry terminates execution, a clean
result is returned. -/
theorem gswsForward_asserts_no_nan_check :
    assertNoNaN [[FV.fin 1, FV.undef]] = none ∧
    assertNoNaN [[FV.fin 1, FV.fin 2]] = some [[FV.fin 1, FV.fin 2]] :=
  ⟨(gswsForward_asserts_no_nan [[FV.fin 1, FV.undef]]).1
      ⟨[FV.fin 1, FV.undef], by simp, by simp⟩,
    (gswsForward_asserts_no_nan [[FV.fin 1, FV.fin 2]]).2 (by decide)⟩

/-! Arithmetic lemmas on vectors of rationals and their float images. -/

theorem vadd_replicate_zero : ∀ (F : ℕ) (v : Vec), v.length = F →
    vadd (List.replicate F 0) v = v := by
  intro F
  induction F with
  | zero => intro v hv; rw [List.length_eq_zero] at hv; subst hv; rfl
  | succ k ih =>
    intro v hv
    cases v with
    | nil => simp at hv
    | cons x xs =>
      simp only [List.length_cons, Nat.succ.injEq] at hv
      simp [vadd, List.replicate_succ] at ih ⊢
      exact ih xs hv

theorem vsum0_length (F : ℕ) (l : List Vec) (h : ∀ v ∈ l, v.length = F) :
    (vsum0 F l).length = F := by
  induction l with
  | nil => simp [vsum0]
  | cons v vs ih =>
    have hv : v.length = F := h v (by simp)
    have hvs : (vsum0 F vs).length = F := ih (fun u hu => h u (by simp [hu]))
    show (vadd v (vsum0 F vs)).length = F
    simp [vadd, hv, hvs]

theorem fvecSub_map_fin (a b : Vec) :
    fvecSub (a.map FV.fin) (b.map FV.fin)
      = (List.zipWith (fun x y => x - y) a b).map FV.fin := by
  induction a generalizing b with
  | nil => simp [fvecSub]
  | cons x xs ih =>
    cases b with
    | nil => simp [fvecSub]
    | cons y ys => simp [fvecSub, FV.sub, List.zipWith_cons_cons] at ih ⊢; exact ih ys

theorem vadd_sub_cancel : ∀ (S h : Vec), S.length = h.length →
    List.zipWith (fun x y => x - y) (vadd S h) h = S := by
  intro S
  induction S with
  | nil => intro h _; simp [vadd]
  | cons s ss ih =>
    intro h hlen
    cases h with
    | nil => simp at hlen
    | cons x xs =>
      simp only [List.length_cons, Nat.succ.injEq] at hlen
      simp [vadd, List.zipWith_cons_cons, add_sub_cancel_right]
      exact ih xs hlen

theorem sumSqFV_map_fin (v : Vec) :
    sumSqFV (v.map FV.fin) = FV.fin (qSumSq v) := by
  induction v with
  | nil => rfl
  | cons x xs ih =>
    show FV.add (FV.mul (FV.fin x) (FV.fin x)) (sumSqFV (xs.map FV.fin)) = _
    rw [ih]
    show FV.fin (x * x + qSumSq xs) = FV.fin (qSumSq (x :: xs))
    simp [qSumSq]

theorem l2NormalizeRow_map_fin (v : Vec) (q : ℚ) :
    l2NormalizeRow (v.map FV.fin) (FV.fin q)
      = (v.map (fun x => sdiv x q)).map FV.fin := by
  simp [l2NormalizeRow, safediv, List.map_map]

theorem qSumSq_map_div (v : Vec) (q : ℚ) (hq : q ≠ 0) :
    qSumSq (v.map (fun x => x / q)) = qSumSq v / q ^ 2 := by
  induction v with
  | nil => simp [qSumSq]
  | cons x xs ih =>
    simp only [List.map_cons, qSumSq, List.sum_cons] at ih ⊢
    rw [ih]
    field_simp
    ring

theorem qSumSq_zero_map (v : Vec) : qSumSq (v.map (fun _ => (0 : ℚ))) = 0 := by
  induction v with
  | nil => simp [qSumSq]
  | cons x xs ih => simp [qSumSq]

/-- C3 amended, positive part: the update of GraphSageConvWithSampling
divides each transformed row by its own L2 norm through safediv, so every
non-degenerate output row (a row whose pre-normalization value is not the
zero vector) has L2 norm one. -/
theorem samplingConv_unit_l2norm (v : Vec) (q : ℚ)
    (hq0 : 0 ≤ q) (hq2 : q ^ 2 = qSumSq v) (hnz : qSumSq v ≠ 0) :
    sumSqFV (l2NormalizeRow (v.map FV.fin) (FV.fin q)) = FV.fin 1 := by
  have hqne : q ≠ 0 := by
    intro h
    apply hnz
    rw [← hq2, h]
    ring
  rw [l2NormalizeRow_map_fin]
  have hdiv : (v.map (fun x => sdiv x q)) = v.map (fun x => x / q) := by
    simp [sdiv, hqne]
  rw [hdiv, sumSqFV_map_fin, qSumSq_map_div v q hqne, ← hq2]
  congr 1
  field_simp

/-- C3 amended witness: row (3, 4), norm 5, normalized sum of squares one. -/
theorem samplingConv_unit_l2norm_check :
    sumSqFV (l2NormalizeRow (([3, 4] : Vec).map FV.fin) (FV.fin 5)) = FV.fin 1 :=
  samplingConv_unit_l2norm [3, 4] 5 (by norm_num)
    (by norm_num [qSumSq]) (by norm_num [qSumSq])

/-- C8: the L2-normalize step of GraphSageConvWithSampling.forward is
idempotent.  Here n is the L2 norm of v and m the L2 norm of the normalized
row, each given by its defining equations; applying the step twice gives
exactly the result of applying it once (so in particular the same result up
to any floating-point tolerance). -/
theorem l2NormalizeRow_idempotent (v : Vec) (n m : ℚ)
    (hn0 : 0 ≤ n) (hn2 : n ^ 2 = qSumSq v)
    (hm0 : 0 ≤ m) (hm2 : m ^ 2 = qSumSq (v.map (fun x => sdiv x n))) :
    l2NormalizeRow (l2NormalizeRow (v.map FV.fin) (FV.fin n)) (FV.fin m)
      = l2NormalizeRow (v.map FV.fin) (FV.fin n) := by
  by_cases hn : n = 0
  · subst hn
    have hz : (v.map (fun x => sdiv x 0)) = v.map (fun _ => (0 : ℚ)) := by
      simp [sdiv]
    rw [hz, qSumSq_zero_map] at hm2
    have hm : m = 0 := by
      have := pow_eq_zero_iff (n := 2) (by norm_num) |>.mp hm2
      exact this
    subst hm
    rw [l2NormalizeRow_map_fin, hz, l2NormalizeRow_map_fin]
    simp [sdiv]
  · have hu : (v.map (fun x => sdiv x n)) = v.map (fun x => x / n) := by
      simp [sdiv, hn]
    rw [hu] at hm2
    rw [qSumSq_map_div v n hn, ← hn2] at hm2
    have hm2' : m ^ 2 = 1 := by
      rw [hm2]
      field_simp
    have hm1 : m = 1 := by
      have hfac : (m - 1) * (m + 1) = 0 := by linear_combination hm2'
      rcases mul_eq_zero.mp hfac with h | h
      · linarith
      · linarith
    subst hm1
    rw [l2NormalizeRow_map_fin, l2NormalizeRow_map_fin]
    congr 1
    simp [sdiv, List.map_map]

/-- C8 witness: v = (3, 4) with norm 5; the normalized row has norm 1 and a
second normalization changes nothing. -/
theorem l2NormalizeRow_idempotent_check :
    l2NormalizeRow (l2NormalizeRow (([3, 4] : Vec).map FV.fin) (FV.fin 5)) (FV.fin 1)
      = l2NormalizeRow (([3, 4] : Vec).map FV.fin) (FV.fin 5) :=
  l2NormalizeRow_idempotent [3, 4] 5 1 (by norm_num) (by norm_num [qSumSq])
    (by norm_num) (by norm_num [qSumSq, sdiv])

/-- C2: the HACK 1 correction of GraphSageConvWithSampling.forward.  When the
aggregate h_agg contains the sum of the true neighbor embeddings plus the
embedding the sampler-injected self-loop contributed, and the message count w
counts the self-loop, subtracting the node embedding and decrementing the
count before the division yields exactly the mean over the true neighbors,
the node embedding excluded. -/
theorem selfLoopCorrectRow_mean_of_true_neighbors
    (neighbors : List Vec) (h : Vec)
    (hne : neighbors ≠ [])
    (hlen : ∀ v ∈ neighbors, v.length = h.length) :
    selfLoopCorrectRow
        ((vadd (vsum0 h.length neighbors) h).map FV.fin)
        (h.map FV.fin)
        (FV.fin ((neighbors.length : ℚ) + 1))
      = (vscale (1 / (neighbors.length : ℚ)) (vsum0 h.length neighbors)).map FV.fin := by
  have hSlen : (vsum0 h.length neighbors).length = h.length :=
    vsum0_length h.length neighbors hlen
  have hN : ((neighbors.length : ℚ)) ≠ 0 := by
    have : neighbors.length ≠ 0 := by
      intro hzero
      exact hne (List.length_eq_zero.mp hzero)
    exact_mod_cast this
  unfold selfLoopCorrectRow
  rw [fvecSub_map_fin, vadd_sub_cancel _ _ hSlen]
  have hw : FV.sub (FV.fin ((neighbors.length : ℚ) + 1)) (FV.fin 1)
      = FV.fin (neighbors.length : ℚ) := by
    show FV.fin ((neighbors.length : ℚ) + 1 - 1) = FV.fin (neighbors.length : ℚ)
    norm_num
  rw [hw]
  unfold vscale
  simp only [List.map_map]
  apply List.map_congr_left
  intro s _
  show FV.fin (sdiv s (neighbors.length : ℚ)) = FV.fin ((1 / (neighbors.length : ℚ)) * s)
  rw [sdiv, if_neg hN]
  rw [div_eq_mul_inv, one_div, mul_comm]

/-- C2 witness: two neighbors with embeddings (2) and (4), node embedding
(10); the self-loop aggregate is (16) with count 3, and the corrected mean is
(3), the mean of the true neighbors. -/
theorem selfLoopCorrectRow_mean_of_true_neighbors_check :
    selfLoopCorrectRow
        ((vadd (vsum0 (List.length ([10] : Vec)) [[2], [4]]) [10]).map FV.fin)
        (([10] : Vec).map FV.fin)
        (FV.fin ((List.length ([[2], [4]] : List Vec) : ℚ) + 1))
      = (vscale (1 / (List.length ([[2], [4]] : List Vec) : ℚ))
          (vsum0 (List.length ([10] : Vec)) [[2], [4]])).map FV.fin :=
  selfLoopCorrectRow_mean_of_true_neighbors [[2], [4]] [10] (by simp)
    (by intro v hv; fin_cases hv <;> rfl)

/-- Looking up the padded embedding table always yields a vector of width F:
the padding row is the zero vector, other rows come from the weight table. -/
theorem paddedEmbedding_length (F : ℕ) (wts : ℕ → Vec)
    (hw : ∀ i, (wts i).length = F) (i : ℕ) :
    (paddedEmbedding F wts i).length = F := by
  unfold paddedEmbedding
  by_cases h : i = 0
  · simp [h]
  · simp [h, hw]

/-- Dropping the padding tokens does not change the summed lookups, because
the padding row of the table is the zero vector. -/
theorem vsum0_padding_filter (F : ℕ) (wts : ℕ → Vec)
    (hw : ∀ i, (wts i).length = F) (tokens : List ℕ) :
    vsum0 F (tokens.map (paddedEmbedding F wts))
      = vsum0 F ((tokens.filter (fun t => t ≠ 0)).map (paddedEmbedding F wts)) := by
  induction tokens with
  | nil => rfl
  | cons t ts ih =>
    by_cases ht : t = 0
    · subst ht
      show vadd (paddedEmbedding F wts 0) (vsum0 F (ts.map (paddedEmbedding F wts))) = _
      have h0 : paddedEmbedding F wts 0 = List.replicate F 0 := rfl
      rw [h0, vadd_replicate_zero F _ ?_, ih]
      · simp
      · exact vsum0_length F _ (by
          intro v hv
          rcases List.mem_map.mp hv with ⟨t', _, rfl⟩
          exact paddedEmbedding_length F wts hw t')
    · have hfil : (t :: ts).filter (fun t => t ≠ 0) = t :: ts.filter (fun t => t ≠ 0) := by
        simp [List.filter_cons, ht]
      rw [hfil]
      show vadd (paddedEmbedding F wts t) (vsum0 F (ts.map (paddedEmbedding F wts))) = _
      rw [ih]
      rfl

/-- C9: the embedding tables of the model are built with padding index zero,
whose row is the zero vector; in the bag-of-words average of a padded token
sequence the padding positions therefore contribute zero to the sum while
the divisor remains the full token count. -/
theorem paddedEmbedding_pad_contributes_zero (F : ℕ) (wts : ℕ → Vec)
    (tokens : List ℕ) (hw : ∀ i, (wts i).length = F) :
    paddedEmbedding F wts 0 = List.replicate F 0 ∧
    bagOfWords F (paddedEmbedding F wts) tokens
      = vscale (1 / (tokens.length : ℚ))
          (vsum0 F ((tokens.filter (fun t => t ≠ 0)).map (paddedEmbedding F wts))) := by
  refine ⟨rfl, ?_⟩
  unfold bagOfWords
  rw [vsum0_padding_filter F wts hw tokens]

/-- C9 witness: table row at a nonzero index i is the one-entry vector (i);
the padded sequence (0, 3) averages to (3/2), the zero token adding nothing
to the sum but still counting in the divisor. -/
theorem paddedEmbedding_pad_contributes_zero_check :
    paddedEmbedding 1 (fun i => [(i : ℚ)]) 0 = List.replicate 1 0 ∧
    bagOfWords 1 (paddedEmbedding 1 (fun i => [(i : ℚ)])) [0, 3]
      = vscale (1 / (List.length ([0, 3] : List ℕ) : ℚ))
          (vsum0 1 ((([0, 3] : List ℕ).filter (fun t => t ≠ 0)).map
            (paddedEmbedding 1 (fun i => [(i : ℚ)])))) :=
  paddedEmbedding_pad_contributes_zero 1 (fun i => [(i : ℚ)]) [0, 3] (fun i => rfl)

/-! Finiteness propagation through the sampling convolution. -/

theorem safediv_ne_undef {a b : FV} (ha : a ≠ FV.undef) (hb : b ≠ FV.undef) :
    safediv a b ≠ FV.undef := by
  cases a with
  | fin qa =>
    cases b with
    | fin qb => simp [safediv]
    | undef => exact absurd rfl hb
  | undef => exact absurd rfl ha

theorem fvsub_ne_undef {a b : FV} (ha : a ≠ FV.undef) (hb : b ≠ FV.undef) :
    FV.sub a b ≠ FV.undef := by
  cases a with
  | fin qa =>
    cases b with
    | fin qb => simp [FV.sub]
    | undef => exact absurd rfl hb
  | undef => exact absurd rfl ha

theorem fvadd_ne_undef {a b : FV} (ha : a ≠ FV.undef) (hb : b ≠ FV.undef) :
    FV.add a b ≠ FV.undef := by
  cases a with
  | fin qa =>
    cases b with
    | fin qb => simp [FV.add]
    | undef => exact absurd rfl hb
  | undef => exact absurd rfl ha

theorem fvmul_ne_undef {a b : FV} (ha : a ≠ FV.undef) (hb : b ≠ FV.undef) :
    FV.mul a b ≠ FV.undef := by
  cases a with
  | fin qa =>
    cases b with
    | fin qb => simp [FV.mul]
    | undef => exact absurd rfl hb
  | undef => exact absurd rfl ha

theorem leakyRelu_ne_undef {x : FV} (hx : x ≠ FV.undef) :
    leakyReluFV x ≠ FV.undef := by
  cases x with
  | fin q => simp [leakyReluFV]
  | undef => exact absurd rfl hx

theorem foldr_add_ne_undef (l : List FV) (h : ∀ x ∈ l, x ≠ FV.undef) :
    l.foldr FV.add (FV.fin 0) ≠ FV.undef := by
  induction l with
  | nil => simp [FV.add]
  | cons x xs ih =>
    exact fvadd_ne_undef (h x (by simp)) (ih (fun y hy => h y (by simp [hy])))

theorem dotFV_ne_undef (ws : List ℚ) (xs : FVec)
    (hxs : ∀ x ∈ xs, x ≠ FV.undef) : dotFV ws xs ≠ FV.undef := by
  apply foldr_add_ne_undef
  intro y hy
  rcases mem_zipWith hy with ⟨wq, _, x, hx, rfl⟩
  exact fvmul_ne_undef (by simp) (hxs x hx)

/-- C1 amended, positive part: GraphSageConvWithSampling.forward never turns
finite inputs into NaN, whatever the message counts are.  In particular a
node whose only message is the sampler-injected self-loop (true neighbor
count zero, w = 1) and a node with no messages at all (w = 0) get defined
finite output rows, because every division in the layer goes through
safediv. -/
theorem samplingConv_no_nan (W : List (List ℚ)) (b : List ℚ)
    (h_agg h : List FVec) (w nrms : List FV)
    (hagg : ∀ row ∈ h_agg, ∀ x ∈ row, x ≠ FV.undef)
    (hh : ∀ row ∈ h, ∀ x ∈ row, x ≠ FV.undef)
    (hw : ∀ x ∈ w, x ≠ FV.undef)
    (hnr : ∀ x ∈ nrms, x ≠ FV.undef) :
    ∀ row ∈ GraphSageConvWithSampling.forward W b h_agg h w nrms,
      ∀ x ∈ row, x ≠ FV.undef := by
  intro row hrow x hx
  unfold GraphSageConvWithSampling.forward at hrow
  rcases mem_zipWith hrow with ⟨hr, hhr, nr, hnrm, rfl⟩
  rcases List.mem_map.mp hx with ⟨y, hy, rfl⟩
  apply safediv_ne_undef ?_ (hnr nr hnrm)
  simp only [GraphSageConvWithSampling.hNew] at hhr
  rcases List.mem_map.mp hhr with ⟨rc, hrc, rfl⟩
  rcases List.mem_map.mp hy with ⟨z, hz, rfl⟩
  apply leakyRelu_ne_undef
  rcases mem_zipWith hz with ⟨wr, _, bi, _, rfl⟩
  apply fvadd_ne_undef ?_ (by simp)
  apply dotFV_ne_undef
  intro u hu
  rcases mem_zipWith hrc with ⟨hrowOrig, hmemh, crow, hmemc, rfl⟩
  rcases List.mem_append.mp hu with hcase | hcase
  · exact hh hrowOrig hmemh u hcase
  · rcases mem_zipWith hmemc with ⟨p, hp, wi, hwi, rfl⟩
    unfold selfLoopCorrectRow at hcase
    rcases List.mem_map.mp hcase with ⟨v, hv, rfl⟩
    apply safediv_ne_undef ?_ (fvsub_ne_undef (hw wi hwi) (by simp))
    rcases mem_zipWith hv with ⟨e1, he1, e2, he2, rfl⟩
    have hzip := List.of_mem_zip hp
    exact fvsub_ne_undef (hagg p.1 hzip.1 e1 he1) (hh p.2 hzip.2 e2 he2)

/-- C1 amended witness: a node whose only message is its own self-loop
(w = 1, aggregate equal to its own embedding) gets a defined finite output
entry from the sampling layer. -/
theorem samplingConv_no_nan_check :
    ((GraphSageConvWithSampling.forward [[1, 1]] [0] [[FV.fin 1]] [[FV.fin 1]]
        [FV.fin 1] [FV.fin 1]).getD 0 []).getD 0 FV.undef ≠ FV.undef := by
  have hout : GraphSageConvWithSampling.forward [[1, 1]] [0] [[FV.fin 1]]
      [[FV.fin 1]] [FV.fin 1] [FV.fin 1] = [[FV.fin 1]] := by
    norm_num [GraphSageConvWithSampling.forward, GraphSageConvWithSampling.hNew,
      selfLoopCorrectRow, l2NormalizeRow, fvecSub, FV.sub, safediv, sdiv,
      linearFV, dotFV, FV.mul, FV.add, leakyReluFV]
  have h := samplingConv_no_nan [[1, 1]] [0] [[FV.fin 1]] [[FV.fin 1]] [FV.fin 1] [FV.fin 1]
    (by decide) (by decide) (by decide) (by decide)
  have hmem : [FV.fin 1] ∈ GraphSageConvWithSampling.forward [[1, 1]] [0]
      [[FV.fin 1]] [[FV.fin 1]] [FV.fin 1] [FV.fin 1] := by
    rw [hout]
    simp
  have hx := h [FV.fin 1] hmem (FV.fin 1) (by simp)
  rw [hout]
  exact hx

/-! Frame and freshness of GraphSage.forward. -/

theorem updateAll_feats (F : ℕ) (W : List (List ℚ)) (b : List ℚ)
    (adj : List (List ℕ)) (g : GState) :
    (GraphSage.updateAll F W b adj g).feats = g.feats := rfl

theorem updateAll_n (F : ℕ) (W : List (List ℚ)) (b : List ℚ)
    (adj : List (List ℕ)) (g : GState) :
    (GraphSage.updateAll F W b adj g).n = g.n := rfl

theorem updateAll_congr (F : ℕ) (W : List (List ℚ)) (b : List ℚ)
    (adj : List (List ℕ)) (g g' : GState)
    (hn : g.n = g'.n) (hh : g.h = g'.h) (hone : g.one = g'.one)
    (hf : g.feats = g'.feats) :
    GraphSage.updateAll F W b adj g = GraphSage.updateAll F W b adj g' := by
  cases g
  cases g'
  simp only at hn hh hone hf
  subst hn
  subst hh
  subst hone
  subst hf
  rfl

theorem foldl_updateAll_feats (F : ℕ) (cW : ℕ → List (List ℚ)) (cB : ℕ → List ℚ)
    (adj : List (List ℕ)) :
    ∀ (L : List ℕ) (g : GState),
      (L.foldl (fun s i => GraphSage.updateAll F (cW i) (cB i) adj s) g).feats
        = g.feats := by
  intro L
  induction L with
  | nil => intro g; rfl
  | cons i is ih =>
    intro g
    simpa [List.foldl_cons] using ih (GraphSage.updateAll F (cW i) (cB i) adj g)

theorem foldl_updateAll_n (F : ℕ) (cW : ℕ → List (List ℚ)) (cB : ℕ → List ℚ)
    (adj : List (List ℕ)) :
    ∀ (L : List ℕ) (g : GState),
      (L.foldl (fun s i => GraphSage.updateAll F (cW i) (cB i) adj s) g).n
        = g.n := by
  intro L
  induction L with
  | nil => intro g; rfl
  | cons i is ih =>
    intro g
    simpa [List.foldl_cons] using ih (GraphSage.updateAll F (cW i) (cB i) adj g)

theorem foldl_updateAll_congr (F : ℕ) (cW : ℕ → List (List ℚ)) (cB : ℕ → List ℚ)
    (adj : List (List ℕ)) :
    ∀ (L : List ℕ) (g g' : GState),
      g.n = g'.n → g.h = g'.h → g.one = g'.one → g.feats = g'.feats →
      (L.foldl (fun s i => GraphSage.updateAll F (cW i) (cB i) adj s) g).h
        = (L.foldl (fun s i => GraphSage.updateAll F (cW i) (cB i) adj s) g').h := by
  intro L
  induction L with
  | nil => intro g g' _ hh _ _; exact hh
  | cons i is ih =>
    intro g g' hn hh hone hf
    simp only [List.foldl_cons]
    rw [updateAll_congr F (cW i) (cB i) adj g g' hn hh hone hf]

/-- The returned embedding column of GraphSage.forward does not depend on
the embedding-related node data the graph carried before the call, only on
the node count and the raw feature columns (and the parameters). -/
theorem gsForward_snd_congr (P : Params) (adj : List (List ℕ)) (g g' : GState)
    (hn : g.n = g'.n) (hf : g.feats = g'.feats) :
    (GraphSage.forward P adj g).2 = (GraphSage.forward P adj g').2 := by
  unfold GraphSage.forward
  apply foldl_updateAll_congr
  · simpa using hn
  · simp only [hn, hf]
  · simp only [hn]
  · simpa using hf

theorem gsForward_fst_feats (P : Params) (adj : List (List ℕ)) (g : GState) :
    (GraphSage.forward P adj g).1.feats = g.feats := by
  unfold GraphSage.forward
  rw [foldl_updateAll_feats]

theorem gsForward_fst_n (P : Params) (adj : List (List ℕ)) (g : GState) :
    (GraphSage.forward P adj g).1.n = g.n := by
  unfold GraphSage.forward
  rw [foldl_updateAll_n]

theorem blockStep_layers (P : Params) (acc : NodeFlow) (i : ℕ) :
    (NodeFlow.blockStep P acc i).layers = acc.layers := rfl

theorem blockStep_blocks (P : Params) (acc : NodeFlow) (i : ℕ) :
    (NodeFlow.blockStep P acc i).blocks = acc.blocks := rfl

theorem foldl_blockStep_layers (P : Params) :
    ∀ (L : List ℕ) (m : NodeFlow),
      (L.foldl (NodeFlow.blockStep P) m).layers = m.layers := by
  intro L
  induction L with
  | nil => intro m; rfl
  | cons i is ih =>
    intro m
    simp only [List.foldl_cons]
    rw [ih (NodeFlow.blockStep P m i), blockStep_layers]

theorem foldl_blockStep_blocks (P : Params) :
    ∀ (L : List ℕ) (m : NodeFlow),
      (L.foldl (NodeFlow.blockStep P) m).blocks = m.blocks := by
  intro L
  induction L with
  | nil => intro m; rfl
  | cons i is ih =>
    intro m
    simp only [List.foldl_cons]
    rw [ih (NodeFlow.blockStep P m i), blockStep_blocks]

theorem blockComputeAll_layers (P : Params) (nf : NodeFlow) :
    (NodeFlow.blockComputeAll P nf).layers = nf.layers :=
  foldl_blockStep_layers P (List.range nf.blocks.length) nf

theorem blockComputeAll_blocks (P : Params) (nf : NodeFlow) :
    (NodeFlow.blockComputeAll P nf).blocks = nf.blocks :=
  foldl_blockStep_blocks P (List.range nf.blocks.length) nf

theorem copy_from_parent_layers (st : GState) (nf : NodeFlow) :
    (NodeFlow.copy_from_parent st nf).layers = nf.layers := rfl

theorem copy_from_parent_blocks (st : GState) (nf : NodeFlow) :
    (NodeFlow.copy_from_parent st nf).blocks = nf.blocks := rfl

/-- copy_from_parent reads only the h and one columns of the parent and the
layer structure of the NodeFlow, and replaces the layer data columns
entirely, so it agrees on parents with equal embedding columns and
NodeFlows with equal topology whatever stale layer data they carry. -/
theorem copy_from_parent_congr (st st' : GState) (nf nf' : NodeFlow)
    (hh : st.h = st'.h) (ho : st.one = st'.one)
    (hlay : nf.layers = nf'.layers) (hblk : nf.blocks = nf'.blocks) :
    NodeFlow.copy_from_parent st nf = NodeFlow.copy_from_parent st' nf' := by
  cases nf
  cases nf'
  simp only at hlay hblk
  subst hlay
  subst hblk
  unfold NodeFlow.copy_from_parent
  simp only [hh, ho]

theorem prologue_feats (P : Params) (g : GState) :
    (GraphSageWithSampling.prologue P g).feats = g.feats := rfl

theorem prologue_n (P : Params) (g : GState) :
    (GraphSageWithSampling.prologue P g).n = g.n := rfl

/-- The embedding column after the prologue depends only on the node count
and the raw feature columns, because the prologue overwrites it from the
identity embedding table before mixing. -/
theorem prologue_h_congr (P : Params) (g g' : GState)
    (hn : g.n = g'.n) (hf : g.feats = g'.feats) :
    (GraphSageWithSampling.prologue P g).h = (GraphSageWithSampling.prologue P g').h := by
  show mix_embeddings P.F P.emb P.proj g.feats
      ((List.range g.n).map (fun i => (P.node_emb i).map FV.fin))
    = mix_embeddings P.F P.emb P.proj g'.feats
      ((List.range g'.n).map (fun i => (P.node_emb i).map FV.fin))
  rw [hn, hf]

theorem prologue_one_congr (P : Params) (g g' : GState) (hn : g.n = g'.n) :
    (GraphSageWithSampling.prologue P g).one
      = (GraphSageWithSampling.prologue P g').one := by
  show List.replicate g.n (FV.fin 1) = List.replicate g'.n (FV.fin 1)
  rw [hn]

/-- The checked result of GraphSageWithSampling.forward does not depend on
the stale embedding-related columns of the parent graph, on the stale layer
data of the NodeFlow, or on the unused h_emb argument. -/
theorem gswsForward_snd_congr (P : Params) (g g' : GState) (nf nf' : NodeFlow)
    (e e' : List FVec)
    (hn : g.n = g'.n) (hf : g.feats = g'.feats)
    (hlay : nf.layers = nf'.layers) (hblk : nf.blocks = nf'.blocks) :
    (GraphSageWithSampling.forward P g nf e).2.2
      = (GraphSageWithSampling.forward P g' nf' e').2.2 := by
  have hcopy : NodeFlow.copy_from_parent (GraphSageWithSampling.prologue P g) nf
      = NodeFlow.copy_from_parent (GraphSageWithSampling.prologue P g') nf' :=
    copy_from_parent_congr _ _ _ _ (prologue_h_congr P g g' hn hf)
      (prologue_one_congr P g g' hn) hlay hblk
  show assertNoNaN
      ((NodeFlow.blockComputeAll P (NodeFlow.copy_from_parent
          (GraphSageWithSampling.prologue P g) nf)).layerH.getD
        ((NodeFlow.blockComputeAll P (NodeFlow.copy_from_parent
          (GraphSageWithSampling.prologue P g) nf)).layerH.length - 1) [])
    = assertNoNaN
      ((NodeFlow.blockComputeAll P (NodeFlow.copy_from_parent
          (GraphSageWithSampling.prologue P g') nf')).layerH.getD
        ((NodeFlow.blockComputeAll P (NodeFlow.copy_from_parent
          (GraphSageWithSampling.prologue P g') nf')).layerH.length - 1) [])
  rw [hcopy]

theorem gswsForward_fst_feats (P : Params) (g : GState) (nf : NodeFlow)
    (e : List FVec) :
    (GraphSageWithSampling.forward P g nf e).1.feats = g.feats := rfl

theorem gswsForward_fst_n (P : Params) (g : GState) (nf : NodeFlow)
    (e : List FVec) :
    (GraphSageWithSampling.forward P g nf e).1.n = g.n := rfl

theorem gswsForward_nf_layers (P : Params) (g : GState) (nf : NodeFlow)
    (e : List FVec) :
    (GraphSageWithSampling.forward P g nf e).2.1.layers = nf.layers := by
  show (NodeFlow.blockComputeAll P (NodeFlow.copy_from_parent
      (GraphSageWithSampling.prologue P g) nf)).layers = nf.layers
  rw [blockComputeAll_layers, copy_from_parent_layers]

theorem gswsForward_nf_blocks (P : Params) (g : GState) (nf : NodeFlow)
    (e : List FVec) :
    (GraphSageWithSampling.forward P g nf e).2.1.blocks = nf.blocks := by
  show (NodeFlow.blockComputeAll P (NodeFlow.copy_from_parent
      (GraphSageWithSampling.prologue P g) nf)).blocks = nf.blocks
  rw [blockComputeAll_blocks, copy_from_parent_blocks]

/-- C10: both forward passes of the notebook, GraphSage.forward and
GraphSageWithSampling.forward, first overwrite the graph embedding column
from the identity embedding table and reset the constant one column, before
feature mixing and message passing.  Consequently, for each of the two
passes: two calls on graphs carrying the same node count and raw features
(and, for the minibatch pass, NodeFlows with the same layer and block
structure) return the same output whatever stale embedding data the graph
and the NodeFlow carry; a repeated call on the graph (and NodeFlow) mutated
by a first call returns the same output as that first call, so embeddings do
not accumulate across calls; and the raw feature columns, the only node data
outside the embedding-related fields h, one, h_agg and w written by the
passes, are unchanged. -/
theorem gsForward_overwrites_and_frames (P : Params) (adj : List (List ℕ))
    (g g' : GState) (nf nf' : NodeFlow) (e e' : List FVec)
    (hn : g.n = g'.n) (hf : g.feats = g'.feats)
    (hlay : nf.layers = nf'.layers) (hblk : nf.blocks = nf'.blocks) :
    (GraphSage.forward P adj g).2 = (GraphSage.forward P adj g').2 ∧
    (GraphSage.forward P adj g).1.feats = g.feats ∧
    (GraphSage.forward P adj (GraphSage.forward P adj g).1).2
      = (GraphSage.forward P adj g).2 ∧
    (GraphSageWithSampling.forward P g nf e).2.2
      = (GraphSageWithSampling.forward P g' nf' e').2.2 ∧
    (GraphSageWithSampling.forward P g nf e).1.feats = g.feats ∧
    (GraphSageWithSampling.forward P
        (GraphSageWithSampling.forward P g nf e).1
        (GraphSageWithSampling.forward P g nf e).2.1 e).2.2
      = (GraphSageWithSampling.forward P g nf e).2.2 := by
  refine ⟨gsForward_snd_congr P adj g g' hn hf, gsForward_fst_feats P adj g,
    ?_, gswsForward_snd_congr P g g' nf nf' e e' hn hf hlay hblk,
    gswsForward_fst_feats P g nf e, ?_⟩
  · exact gsForward_snd_congr P adj (GraphSage.forward P adj g).1 g
      (gsForward_fst_n P adj g) (gsForward_fst_feats P adj g)
  · exact gswsForward_snd_congr P (GraphSageWithSampling.forward P g nf e).1 g
      (GraphSageWithSampling.forward P g nf e).2.1 nf e e
      (gswsForward_fst_n P g nf e) (gswsForward_fst_feats P g nf e)
      (gswsForward_nf_layers P g nf e) (gswsForward_nf_blocks P g nf e)

/-- C10 witness: a one-node toy graph in two states that differ in every
embedding-related column, and a one-block NodeFlow in two states that differ
in every layer data column. -/
theorem gsForward_overwrites_and_frames_check :
    (GraphSage.forward exampleParams [[]] exampleState).2
        = (GraphSage.forward exampleParams [[]] exampleState').2 ∧
    (GraphSage.forward exampleParams [[]] exampleState).1.feats = exampleState.feats ∧
    (GraphSage.forward exampleParams [[]]
        (GraphSage.forward exampleParams [[]] exampleState).1).2
      = (GraphSage.forward exampleParams [[]] exampleState).2 ∧
    (GraphSageWithSampling.forward exampleParams exampleState exampleNF []).2.2
      = (GraphSageWithSampling.forward exampleParams exampleState' exampleNF' []).2.2 ∧
    (GraphSageWithSampling.forward exampleParams exampleState exampleNF []).1.feats
      = exampleState.feats ∧
    (GraphSageWithSampling.forward exampleParams
        (GraphSageWithSampling.forward exampleParams exampleState exampleNF []).1
        (GraphSageWithSampling.forward exampleParams exampleState exampleNF []).2.1 []).2.2
      = (GraphSageWithSampling.forward exampleParams exampleState exampleNF []).2.2 :=
  gsForward_overwrites_and_frames exampleParams [[]] exampleState exampleState'
    exampleNF exampleNF' [] [] rfl rfl rfl rfl

/-- C6 witness: a concrete shuffle index leaves the seed batches unchanged. -/
theorem epochSeedBatches_ignores_shuffle_check :
    epochSeedBatches [1, 2, 3, 4] [5, 6, 7, 8] [3, 2, 1, 0] 2
      = [[1, 2], [5, 6], [3, 4], [7, 8]] :=
  epochSeedBatches_ignores_shuffle [3, 2, 1, 0]
